import Mathlib

set_option maxRecDepth 10000

/-!
Verification of the merge-conflict resolution pipeline of the git-tools
repository (src/main.rs, src/git.rs, src/ai.rs, src/config.rs).

Rust strings are modelled at the byte level: a `Str` is the list of bytes of
a UTF-8 string.  Byte-level modelling is needed because the source indexes
and slices strings by byte offset (`content.len()`, `&content[..500]`), and
those operations panic on offsets that are not character boundaries.
Operations that can panic in Rust return `Option` here, with `none` marking
a panic.
-/

/-- Bytes of a UTF-8 encoded Rust string. -/
abbrev Str := List Nat

/-- Bytes of the conflict start marker string of `extract_conflict_content`. -/
def startMarker : Str := List.replicate 7 60

/-- Bytes of the conflict end marker string of `extract_conflict_content`. -/
def endMarker : Str := List.replicate 7 62

/-- Bytes of the truncation marker appended by `extract_conflict_content`. -/
def truncMarker : Str := [46, 46, 46, 32, 40, 116, 114, 117, 110, 99, 97, 116, 101, 100, 41]

/-- `hasLead p s` holds when `p` is an initial run of `s` (Rust `str::starts_with`). -/
def hasLead : Str → Str → Bool
  | [], _ => true
  | _ :: _, [] => false
  | a :: p, b :: s => a == b && hasLead p s

/-- Byte-level substring test, the model of Rust `str::contains` for a literal. -/
def containsSub (p : Str) : Str → Bool
  | [] => List.isEmpty p
  | b :: rest => hasLead p (b :: rest) || containsSub p rest

/-- Split a byte string into pieces, each piece keeping its terminating newline,
the model of `str::split_inclusive` at the newline byte used by `str::lines`. -/
def splitInclNl : Str → List Str
  | [] => []
  | b :: rest =>
    if b = 10 then [10] :: splitInclNl rest
    else
      match splitInclNl rest with
      | [] => [[b]]
      | l :: ls => (b :: l) :: ls

/-- Strip one trailing newline byte and, when one was stripped, one trailing
carriage-return byte, as the iterator of Rust `str::lines` does per piece. -/
def lineMap (l : Str) : Str :=
  match l.getLast? with
  | some 10 =>
    let l2 := l.dropLast
    match l2.getLast? with
    | some 13 => l2.dropLast
    | _ => l2
  | _ => l

/-- The model of Rust `str::lines`. -/
def rlines (s : Str) : List Str := (splitInclNl s).map lineMap

/-- The marker scan of `extract_conflict_content` (ai.rs lines 68 to 74): one
pass over the numbered lines, remembering the last line containing the start
marker and, on an `else if`, the last line containing the end marker. -/
def findMarkersGo : List Str → Nat → Option Nat × Option Nat → Option Nat × Option Nat
  | [], _, acc => acc
  | l :: ls, i, acc =>
    findMarkersGo ls (i + 1)
      (if containsSub startMarker l then (some i, acc.2)
       else if containsSub endMarker l then (acc.1, some i)
       else acc)

/-- Entry point of the marker scan with both accumulators empty. -/
def findMarkers (ls : List Str) : Option Nat × Option Nat := findMarkersGo ls 0 (none, none)

/-- Join lines with the newline byte, the model of `[&str]::join("\n")`. -/
def joinNl : List Str → Str
  | [] => []
  | [l] => l
  | l :: l2 :: ls => l ++ 10 :: joinNl (l2 :: ls)

/-- Rust `str::is_char_boundary`: offset 0 and the total length are boundaries,
an inner offset is a boundary when its byte is not a UTF-8 continuation byte. -/
def isCharBoundary (s : Str) (i : Nat) : Bool :=
  if i = 0 then true
  else if i = s.length then true
  else
    match s[i]? with
    | some b => decide (b < 128) || decide (192 ≤ b)
    | none => false

/-- Rust byte slicing `&s[..n]`: panics (`none`) when `n` exceeds the length
or is not a character boundary. -/
def slicePre (s : Str) (n : Nat) : Option Str :=
  if n ≤ s.length ∧ isCharBoundary s n = true then some (s.take n) else none

/-- Rust slice indexing `ls[a..b]`: panics (`none`) when `a > b` or `b` exceeds
the length. -/
def sliceRange (ls : List Str) (a b : Nat) : Option (List Str) :=
  if a ≤ b ∧ b ≤ ls.length then some ((ls.drop a).take (b - a)) else none

/-- The model of `ConflictResolver::extract_conflict_content` (ai.rs lines 57
to 99).  `MAX_CONTEXT_LENGTH` is 500 bytes and `CONTEXT_LINES` is 3.  The
subtraction `cs - 3` is the saturating subtraction of the source; `none`
models a panic of a byte or line slice. -/
def extract_conflict_content (content : Str) : Option Str :=
  match findMarkers (rlines content) with
  | (some cs, some ce) =>
    match sliceRange (rlines content) (cs - 3) (min (ce + 3 + 1) (rlines content).length) with
    | none => none
    | some rel =>
      if 500 < (joinNl rel).length then
        match slicePre (joinNl rel) 500 with
        | none => none
        | some p => some (p ++ truncMarker)
      else some (joinNl rel)
  | _ =>
    if 500 < content.length then
      match slicePre content 500 with
      | none => none
      | some p => some (p ++ truncMarker)
    else some content

example : extract_conflict_content [97, 98, 99] = some [97, 98, 99] := by decide

example :
    extract_conflict_content (startMarker ++ 10 :: endMarker) =
      some (startMarker ++ 10 :: endMarker) := by decide

/-- The model of `config::Settings` (config.rs lines 22 to 30). -/
structure Settings where
  openai_api_key : Option String
  model : String
  max_retries : Nat
  timeout_seconds : Nat
deriving DecidableEq, Repr

/-- The model of `git::ConflictFile` (git.rs lines 5 to 11). -/
structure ConflictFile where
  path : Str
  our_content : Str
  their_content : Str
  base_content : Option Str
deriving DecidableEq, Repr

/-- One chat message of the wire contract (ai.rs lines 15 to 19). -/
structure ChatMessage where
  role : String
  content : String
deriving DecidableEq, Repr

/-- One choice of the chat response (ai.rs lines 28 to 31). -/
structure ChatChoice where
  message : ChatMessage
deriving DecidableEq, Repr

/-- Outcome of one outbound HTTP call, the oracle for the reqwest client:
either the send fails, or a response with a status and a body text arrives. -/
inductive NetOutcome where
  | sendErr (e : String)
  | resp (status : Nat) (body : String)
deriving DecidableEq, Repr

/-- reqwest `StatusCode::is_success`: status in the 2xx range. -/
def statusSuccess (status : Nat) : Bool := decide (200 ≤ status) && decide (status < 300)

/-- The model of `ConflictResolver::try_resolve` (ai.rs lines 187 to 225).
The network is an oracle `net` for this one call and JSON decoding of the
body (external serde_json) is an oracle `parse`.  The second component counts
the outbound network calls the invocation makes (0 or 1): the api key check
comes first, so a missing key produces the configuration error with no
network call. -/
def try_resolve (s : Settings) (net : NetOutcome)
    (parse : String → Except String (List ChatChoice)) : Except String String × Nat :=
  match s.openai_api_key with
  | none => (Except.error "OpenAI API key not set", 0)
  | some _ =>
    match net with
    | NetOutcome.sendErr e => (Except.error ("Failed to send request to OpenAI API: " ++ e), 1)
    | NetOutcome.resp status body =>
      if statusSuccess status = false then
        (Except.error ("API request failed with status " ++ toString status ++ ": " ++ body), 1)
      else
        match parse body with
        | Except.error e =>
          (Except.error ("Failed to parse API response: " ++ e ++ ", Response: " ++ body), 1)
        | Except.ok choices =>
          match choices.head? with
          | some choice => (Except.ok choice.message.content, 1)
          | none => (Except.error "No resolution provided by AI", 1)

deriving instance DecidableEq for Except

/-- Observable events of one `resolve_conflict` invocation: the numbered
attempts (1-indexed) and the backoff sleeps, in program order. -/
inductive REvent where
  | attempt (n : Nat)
  | sleepMs (ms : Nat)
deriving DecidableEq, Repr

/-- True exactly on attempt events. -/
def isAttempt : REvent → Bool
  | REvent.attempt _ => true
  | _ => false

/-- The retry loop of `ConflictResolver::resolve_conflict` (ai.rs lines 157
to 185), with the outcome of each numbered attempt abstracted as `tryRes`.
The Rust `while attempts <= max_retries` loop is translated with a fuel
argument; each iteration consumes one unit, and as every path through the
body with `attempts > max_retries` returns, fuel `max_retries + 1` is never
exhausted, mirroring the unreachable fallback error after the source loop.
The trace records each attempt and each backoff sleep of
`500 * 2 ^ attempts` milliseconds in order. -/
def resolveGo (tryRes : Nat → Except String String) (maxRetries : Nat) :
    Nat → Nat → Except String String × List REvent
  | 0, _ => (Except.error "Failed to get AI resolution", [])
  | fuel + 1, attempts =>
    if attempts ≤ maxRetries then
      match tryRes (attempts + 1) with
      | Except.ok r => (Except.ok r, [REvent.attempt (attempts + 1)])
      | Except.error e =>
        if maxRetries < attempts + 1 then
          (Except.error ("Failed to get AI resolution after " ++ toString (attempts + 1) ++
              " attempts: " ++ e),
           [REvent.attempt (attempts + 1)])
        else
          let rest := resolveGo tryRes maxRetries fuel (attempts + 1)
          (rest.1, REvent.attempt (attempts + 1) ::
            REvent.sleepMs (500 * 2 ^ (attempts + 1)) :: rest.2)
    else (Except.error "Failed to get AI resolution", [])

/-- `resolve_conflict` under the per-attempt abstraction: start with
`attempts = 0` and enough fuel for the whole loop. -/
def resolve_conflict (tryRes : Nat → Except String String) (maxRetries : Nat) :
    Except String String × List REvent :=
  resolveGo tryRes maxRetries (maxRetries + 1) 0

/-- `resolve_conflict` where every attempt runs the real `try_resolve` against
a per-attempt network oracle, as the source does with `self.settings`. -/
def resolve_conflict_net (s : Settings) (net : Nat → NetOutcome)
    (parse : String → Except String (List ChatChoice)) : Except String String × List REvent :=
  resolve_conflict (fun i => (try_resolve s (net i) parse).1) s.max_retries

example :
    resolve_conflict (fun i => if i ≤ 2 then Except.error "e" else Except.ok "v") 3 =
      (Except.ok "v",
       [REvent.attempt 1, REvent.sleepMs 1000, REvent.attempt 2, REvent.sleepMs 2000,
        REvent.attempt 3]) := by decide

example :
    resolve_conflict (fun _ => Except.error "e") 0 =
      (Except.error "Failed to get AI resolution after 1 attempts: e", [REvent.attempt 1]) := by
  decide

/-- True when `b` is a UTF-8 continuation byte position filler, that is a byte
in the range 0x80 to 0xBF. -/
def utf8Cont (b : Nat) : Bool := decide (128 ≤ b) && decide (b < 192)

/-- UTF-8 validity of a byte list, the check performed by Rust
`String::from_utf8` and `str::from_utf8` (external std), following the
standard UTF-8 well-formedness table. -/
def validUtf8 : List Nat → Bool
  | [] => true
  | b :: rest =>
    if b < 128 then validUtf8 rest
    else if 194 ≤ b ∧ b ≤ 223 then
      match rest with
      | c1 :: r => utf8Cont c1 && validUtf8 r
      | [] => false
    else if b = 224 then
      match rest with
      | c1 :: c2 :: r => (decide (160 ≤ c1) && decide (c1 ≤ 191)) && utf8Cont c2 && validUtf8 r
      | _ => false
    else if (225 ≤ b ∧ b ≤ 236) ∨ (238 ≤ b ∧ b ≤ 239) then
      match rest with
      | c1 :: c2 :: r => utf8Cont c1 && utf8Cont c2 && validUtf8 r
      | _ => false
    else if b = 237 then
      match rest with
      | c1 :: c2 :: r => (decide (128 ≤ c1) && decide (c1 ≤ 159)) && utf8Cont c2 && validUtf8 r
      | _ => false
    else if b = 240 then
      match rest with
      | c1 :: c2 :: c3 :: r =>
        (decide (144 ≤ c1) && decide (c1 ≤ 191)) && utf8Cont c2 && utf8Cont c3 && validUtf8 r
      | _ => false
    else if 241 ≤ b ∧ b ≤ 243 then
      match rest with
      | c1 :: c2 :: c3 :: r => utf8Cont c1 && utf8Cont c2 && utf8Cont c3 && validUtf8 r
      | _ => false
    else if b = 244 then
      match rest with
      | c1 :: c2 :: c3 :: r =>
        (decide (128 ≤ c1) && decide (c1 ≤ 143)) && utf8Cont c2 && utf8Cont c3 && validUtf8 r
      | _ => false
    else false

example : validUtf8 [97, 195, 169] = true := by decide
example : validUtf8 [195] = false := by decide
example : validUtf8 [169] = false := by decide

/-- One side of an index conflict entry: a path (bytes) and a blob id, the
fields of `git2::IndexEntry` that `get_conflicts` reads. -/
structure IndexSide where
  path : Str
  oid : Nat
deriving DecidableEq, Repr

/-- One entry of `git2::Index::conflicts`: the three optional stage entries. -/
structure IndexConflictEntry where
  our : Option IndexSide
  their : Option IndexSide
  ancestor : Option IndexSide
deriving DecidableEq, Repr

/-- The model of the `try_get_content` closure of `GitHandler::get_conflicts`
(git.rs lines 187 to 196): look the blob up (`none` models a lookup error),
drop every zero byte, then demand UTF-8 validity of the filtered bytes. -/
def tryGetContent (blobs : Nat → Option Str) (oid : Nat) : Option Str :=
  match blobs oid with
  | none => none
  | some bytes =>
    if validUtf8 (bytes.filter (fun b => b ≠ 0)) then some (bytes.filter (fun b => b ≠ 0))
    else none

/-- The per-entry body of the `get_conflicts` loop (git.rs lines 180 to 221):
an entry yields a `ConflictFile` only when both the our and the their stage
are present, the our path is valid UTF-8, and both contents load as valid
text; every `continue` of the source is a `none` here.  The path, like the
source, has its zero bytes removed by `replace` after decoding. -/
def convertConflict (blobs : Nat → Option Str) (e : IndexConflictEntry) : Option ConflictFile :=
  match e.our, e.their with
  | some our, some their =>
    if validUtf8 our.path then
      match tryGetContent blobs our.oid with
      | none => none
      | some ourC =>
        match tryGetContent blobs their.oid with
        | none => none
        | some theirC =>
          some
            { path := our.path.filter (fun b => b ≠ 0)
              our_content := ourC
              their_content := theirC
              base_content :=
                match e.ancestor with
                | some base => tryGetContent blobs base.oid
                | none => none }
    else none
  | _, _ => none

/-- The model of `GitHandler::get_conflicts` (git.rs lines 173 to 225): fold
the conversion over the index conflict entries, silently skipping the
entries that do not convert. -/
def get_conflicts (blobs : Nat → Option Str) : List IndexConflictEntry → List ConflictFile
  | [] => []
  | e :: rest =>
    match convertConflict blobs e with
    | some cf => cf :: get_conflicts blobs rest
    | none => get_conflicts blobs rest

/-- The repository state the orchestrator mutates: the working tree as a
path-to-content table, the set of staged paths, and whether the in-progress
merge metadata (MERGE_HEAD and friends) is present. -/
structure RepoState where
  workdir : List (Str × Str)
  indexAdded : List Str
  mergeState : Bool
deriving DecidableEq, Repr

/-- Working tree lookup of one path. -/
def lookupWd (wd : List (Str × Str)) (p : Str) : Option Str :=
  match wd.find? (fun e => e.1 == p) with
  | some e => some e.2
  | none => none

/-- The model of `GitHandler::apply_resolution` (git.rs lines 228 to 239):
write the resolved content at the path in the working tree and stage the
path in the index. -/
def apply_resolution (st : RepoState) (p content : Str) : RepoState :=
  { st with
    workdir := (p, content) :: st.workdir.filter (fun e => e.1 ≠ p)
    indexAdded := if p ∈ st.indexAdded then st.indexAdded else st.indexAdded ++ [p] }

/-- The model of `GitHandler::abort_merge` (git.rs lines 346 to 349): it calls
`git2::Repository::cleanup_state`, which removes the metadata of the
in-progress merge (MERGE_HEAD, MERGE_MSG, ...) and does not modify the
working tree or the index. -/
def abort_merge (st : RepoState) : RepoState := { st with mergeState := false }

/-- Observable events of one `handle_merge` invocation, in program order. -/
inductive OEvent where
  | checkBranch (name : String) (found : Bool)
  | mergeInvoked
  | resolveAttempt (p : Str)
  | applied (p : Str)
  | abortInvoked
deriving DecidableEq, Repr

/-- Path of a resolve-attempt event, `none` on every other event. -/
def attPath : OEvent → Option Str
  | OEvent.resolveAttempt p => some p
  | _ => none

/-- True on ok results. -/
def exOk : Except ε α → Bool
  | Except.ok _ => true
  | Except.error _ => false

/-- The per-conflict loop of `handle_merge` (main.rs lines 117 to 135): every
conflict is attempted in order; a successful resolution is applied to the
repository at once, a failure only clears the `all_resolved` flag, and the
loop never exits early.  Returns the final state, the flag, and the events. -/
def resolvingLoop (resolve : ConflictFile → Except String Str) :
    List ConflictFile → RepoState → Bool → RepoState × Bool × List OEvent
  | [], st, allRes => (st, allRes, [])
  | c :: rest, st, allRes =>
    match resolve c with
    | Except.ok text =>
      let out := resolvingLoop resolve rest (apply_resolution st c.path text) allRes
      (out.1, out.2.1, OEvent.resolveAttempt c.path :: OEvent.applied c.path :: out.2.2)
    | Except.error _ =>
      let out := resolvingLoop resolve rest st false
      (out.1, out.2.1, OEvent.resolveAttempt c.path :: out.2.2)

/-- The external collaborators of `handle_merge`: branch lookup, the effect
and outcome of the merge primitive, the enumerated conflicts, and the
per-file resolver (the whole of `ConflictResolver::resolve_conflict`). -/
structure MergeOracle where
  branches : String → Bool
  mergeFx : RepoState → RepoState
  hasConflicts : Bool
  conflicts : List ConflictFile
  resolve : ConflictFile → Except String Str

/-- The model of `handle_merge` (main.rs lines 79 to 155): check both branch
names first and stop with a distinct error naming the missing branch; then
run the merge primitive; on conflicts, with an api key, attempt every file
and afterwards either keep the applied resolutions or call the abort
primitive; without an api key abort at once.  The function result is the
`anyhow::Result` of the source, which is `Ok(())` even on the abort paths. -/
def handle_merge (o : MergeOracle) (s : Settings) (target source : String) (st : RepoState) :
    Except String Unit × RepoState × List OEvent :=
  if o.branches target = false then
    (Except.error ("Target branch \x27" ++ target ++ "\x27 does not exist"), st,
     [OEvent.checkBranch target false])
  else if o.branches source = false then
    (Except.error ("Source branch \x27" ++ source ++ "\x27 does not exist"), st,
     [OEvent.checkBranch target true, OEvent.checkBranch source false])
  else if o.hasConflicts then
    if s.openai_api_key.isSome then
      if (resolvingLoop o.resolve o.conflicts (o.mergeFx st) true).2.1 then
        (Except.ok (), (resolvingLoop o.resolve o.conflicts (o.mergeFx st) true).1,
         [OEvent.checkBranch target true, OEvent.checkBranch source true,
          OEvent.mergeInvoked] ++ (resolvingLoop o.resolve o.conflicts (o.mergeFx st) true).2.2)
      else
        (Except.ok (), abort_merge (resolvingLoop o.resolve o.conflicts (o.mergeFx st) true).1,
         [OEvent.checkBranch target true, OEvent.checkBranch source true,
          OEvent.mergeInvoked] ++ (resolvingLoop o.resolve o.conflicts (o.mergeFx st) true).2.2 ++
          [OEvent.abortInvoked])
    else
      (Except.ok (), abort_merge (o.mergeFx st),
       [OEvent.checkBranch target true, OEvent.checkBranch source true, OEvent.mergeInvoked,
        OEvent.abortInvoked])
  else
    (Except.ok (), o.mergeFx st,
     [OEvent.checkBranch target true, OEvent.checkBranch source true, OEvent.mergeInvoked])

/-! Concrete data used by counterexamples and witnesses. -/

/-- Path bytes of the first example conflict file. -/
def pathA : Str := [97]

/-- Path bytes of the second example conflict file. -/
def pathB : Str := [98]

/-- First example conflict file. -/
def cfA : ConflictFile := ⟨pathA, [111], [116], none⟩

/-- Second example conflict file. -/
def cfB : ConflictFile := ⟨pathB, [111], [116], none⟩

/-- Initial repository state: both files hold their conflicted content and the
merge metadata is present. -/
def st0 : RepoState := ⟨[(pathA, [48]), (pathB, [49])], [], true⟩

/-- Settings with an api key configured. -/
def settingsKey : Settings := ⟨some "k", "gpt-4", 3, 30⟩

/-- Oracle under which the first file resolves to the byte 82 and the second
file fails resolution. -/
def oracleEx : MergeOracle :=
  { branches := fun _ => true
    mergeFx := id
    hasConflicts := true
    conflicts := [cfA, cfB]
    resolve := fun c => if c.path = pathA then Except.ok [82] else Except.error "resolution failed" }

/-- Claim C1 (status code_bug): with a conflicted merge where file a resolves
successfully and file b fails, the orchestrator does invoke the abort
primitive, but the abort is `cleanup_state`, which only removes the merge
metadata: the resolved text of file a, written and staged before the decision,
persists in the working tree and index, contradicting the claimed guarantee
that the working tree after an aborted attempt is unmodified by the
resolutions computed during it. -/
theorem c1_abort_leaves_applied_resolutions :
    OEvent.abortInvoked ∈ (handle_merge oracleEx settingsKey "main" "feature" st0).2.2 ∧
    lookupWd (handle_merge oracleEx settingsKey "main" "feature" st0).2.1.workdir pathA =
      some [82] ∧
    (handle_merge oracleEx settingsKey "main" "feature" st0).2.1.workdir ≠ st0.workdir ∧
    (handle_merge oracleEx settingsKey "main" "feature" st0).2.1.mergeState = false ∧
    pathA ∈ (handle_merge oracleEx settingsKey "main" "feature" st0).2.1.indexAdded := by
  decide

/-- Nine lines whose first line holds the end marker and whose last line holds
the start marker, so the last start-marker index 8 is numerically after the
last end-marker index 0. -/
def c3input : Str :=
  endMarker ++ [10, 120, 10, 120, 10, 120, 10, 120, 10, 120, 10, 120, 10, 120, 10] ++ startMarker

/-- Claim C3 (status code_bug): on malformed input whose start marker line
comes after the end marker line, the window bounds are start = 8 - 3 = 5 and
end = min (0 + 4) 9 = 4, and the source slice `lines[5..4]` panics in Rust
because the range start exceeds its end; the extraction is not panic free as
claimed. -/
theorem c3_reversed_markers_panic :
    findMarkers (rlines c3input) = (some 8, some 0) ∧
    extract_conflict_content c3input = none := by decide

/-- 499 ascii bytes followed by the two-byte character U+00E9: byte offset 500
falls on the continuation byte. -/
def c7input : Str := List.replicate 499 97 ++ [195, 169]

/-- Claim C7 (status code_bug): the 500-byte truncation step slices at byte
offset 500; on this marker-free 501-byte input offset 500 is inside a
multi-byte character, so `&content[..500]` panics and the function is not
total as claimed. -/
theorem c7_mid_char_truncation_panics :
    c7input.length = 501 ∧
    findMarkers (rlines c7input) = (none, none) ∧
    extract_conflict_content c7input = none := by decide

/-- Settings with no api key and one permitted retry. -/
def settingsNoKey : Settings := ⟨none, "gpt-4", 1, 30⟩

/-- A network oracle; never reached when the api key is absent. -/
def netAny : Nat → NetOutcome := fun _ => NetOutcome.sendErr "unused"

/-- A parse oracle; never reached when the api key is absent. -/
def parseAny : String → Except String (List ChatChoice) := fun _ => Except.error "unused"

/-- Claim C4 counterexample: with the api key absent and `max_retries = 1`,
`resolve_conflict` makes a second attempt and sleeps 1000 ms before it, so
the configuration error is retried, contrary to the claim that no backoff
sleep occurs and no second attempt is made. -/
theorem c4_missing_key_is_retried :
    settingsNoKey.openai_api_key = none ∧
    (resolve_conflict_net settingsNoKey netAny parseAny).2 =
      [REvent.attempt 1, REvent.sleepMs 1000, REvent.attempt 2] ∧
    (resolve_conflict_net settingsNoKey netAny parseAny).1 =
      Except.error "Failed to get AI resolution after 2 attempts: OpenAI API key not set" := by
  decide

/-- Six lines: the end marker line first, four filler lines, the start marker
line last. -/
def c5input : Str := endMarker ++ [10, 97, 10, 98, 10, 99, 10, 100, 10] ++ startMarker

/-- A conflict-marked text whose windowed excerpt exceeds 500 bytes: the start
marker line, one 600-byte line, the end marker line. -/
def c5long : Str := startMarker ++ 10 :: (List.replicate 600 97 ++ 10 :: endMarker)

/-- Claim C5 counterexample: two inputs with both marker lines whose excerpt
does not include the marker lines.  On the first (last start-marker line
after the last end-marker line) the window [2, 4) contains neither marker
line.  On the second the joined window exceeds 500 bytes and the truncation
cuts the end marker line off. -/
theorem c5_markers_window_counterexample :
    containsSub startMarker c5input = true ∧
    containsSub endMarker c5input = true ∧
    extract_conflict_content c5input = some [98, 10, 99] ∧
    containsSub startMarker [98, 10, 99] = false ∧
    containsSub endMarker [98, 10, 99] = false ∧
    extract_conflict_content c5long =
      some (startMarker ++ 10 :: (List.replicate 492 97 ++ truncMarker)) ∧
    containsSub endMarker (startMarker ++ 10 :: (List.replicate 492 97 ++ truncMarker)) =
      false := by decide

/-- `List.range'` unfolds one step at a time. -/
theorem range'_succ_eq (s n : Nat) : List.range' s (n + 1) = s :: List.range' (s + 1) n := rfl

@[simp]
theorem isAttempt_attempt (n : Nat) : isAttempt (REvent.attempt n) = true := rfl

@[simp]
theorem isAttempt_sleepMs (ms : Nat) : isAttempt (REvent.sleepMs ms) = false := rfl

/-- The attempt-sleep block trace over a range contains one attempt event per
range element. -/
theorem countAttemptBlocks (n : Nat) : ∀ s : Nat,
    List.countP (fun e => isAttempt e)
      ((List.range' s n).flatMap (fun k => [REvent.attempt k, REvent.sleepMs (500 * 2 ^ k)])) =
      n := by
  induction n with
  | zero => intro s; rfl
  | succ n ih =>
    intro s
    rw [range'_succ_eq]
    simp [List.flatMap_cons, List.countP_cons, ih]

/-- When attempts `a + 1`, ..., `f` fail and attempt `f + 1` succeeds, with
`f ≤ maxRetries`, the loop starting at `attempts = a` returns the success
and the trace of one attempt-sleep block per failed attempt followed by the
successful attempt. -/
theorem resolveGo_ok (tryRes : Nat → Except String String) (maxRetries f : Nat)
    (errAt : Nat → String) (v : String)
    (hf : f ≤ maxRetries)
    (hfail : ∀ i, 1 ≤ i → i ≤ f → tryRes i = Except.error (errAt i))
    (hok : tryRes (f + 1) = Except.ok v) :
    ∀ fuel a, a + fuel = maxRetries + 1 → a ≤ f →
      resolveGo tryRes maxRetries fuel a =
        (Except.ok v,
         (List.range' (a + 1) (f - a)).flatMap
             (fun n => [REvent.attempt n, REvent.sleepMs (500 * 2 ^ n)]) ++
           [REvent.attempt (f + 1)]) := by
  intro fuel
  induction fuel with
  | zero => intro a h1 h2; omega
  | succ fuel ih =>
    intro a h1 h2
    have hguard : a ≤ maxRetries := le_trans h2 hf
    simp only [resolveGo, if_pos hguard]
    by_cases hstop : a = f
    · subst hstop
      rw [hok]
      simp [Nat.sub_self]
    · have halt : a + 1 ≤ f := by omega
      have hnlt : ¬ maxRetries < a + 1 := by omega
      have hsub : f - a = (f - (a + 1)) + 1 := by omega
      rw [hfail (a + 1) (by omega) halt]
      simp only [hnlt, ite_false, ih (a + 1) (by omega) halt]
      rw [hsub, range'_succ_eq]
      simp [List.flatMap_cons]

/-- When every attempt up to `maxRetries + 1` fails, the loop starting at
`attempts = a ≤ maxRetries` returns the terminal error built from the final
attempt count and the last failure, and the full block trace. -/
theorem resolveGo_err (tryRes : Nat → Except String String) (maxRetries : Nat)
    (errAt : Nat → String)
    (hfail : ∀ i, 1 ≤ i → i ≤ maxRetries + 1 → tryRes i = Except.error (errAt i)) :
    ∀ fuel a, a + fuel = maxRetries + 1 → a ≤ maxRetries →
      resolveGo tryRes maxRetries fuel a =
        (Except.error ("Failed to get AI resolution after " ++ toString (maxRetries + 1) ++
            " attempts: " ++ errAt (maxRetries + 1)),
         (List.range' (a + 1) (maxRetries - a)).flatMap
             (fun n => [REvent.attempt n, REvent.sleepMs (500 * 2 ^ n)]) ++
           [REvent.attempt (maxRetries + 1)]) := by
  intro fuel
  induction fuel with
  | zero => intro a h1 h2; omega
  | succ fuel ih =>
    intro a h1 h2
    simp only [resolveGo, if_pos h2]
    rw [hfail (a + 1) (by omega) (by omega)]
    by_cases hstop : a = maxRetries
    · subst hstop
      have hx : a < a + 1 := by omega
      simp [hx, Nat.sub_self]
    · have hnlt : ¬ maxRetries < a + 1 := by omega
      have hsub : maxRetries - a = (maxRetries - (a + 1)) + 1 := by omega
      simp only [hnlt, ite_false, ih (a + 1) (by omega) (by omega)]
      rw [hsub, range'_succ_eq]
      simp [List.flatMap_cons]

/-- C2: for every sequence of consecutive attempt failures (attempts 1 to `f`
fail, attempt `f + 1` would succeed), `resolve_conflict` issues exactly
`1 + min f maxRetries` attempts; the trace consists of one attempt-sleep
block per retried failure, with the sleep before retry `n` (1-indexed) of
`500 * 2 ^ n` milliseconds, followed by the final attempt — so there is no
sleep before the first attempt and none after the final failed attempt; and
when the retries are exhausted the terminal error reports the attempt count
and the last failure detail. -/
theorem c2_retry_policy (tryRes : Nat → Except String String) (maxRetries f : Nat)
    (errAt : Nat → String) (v : String)
    (hfail : ∀ i, 1 ≤ i → i ≤ f → tryRes i = Except.error (errAt i))
    (hok : f ≤ maxRetries → tryRes (f + 1) = Except.ok v) :
    (resolve_conflict tryRes maxRetries).2 =
      (List.range' 1 (min f maxRetries)).flatMap
          (fun n => [REvent.attempt n, REvent.sleepMs (500 * 2 ^ n)]) ++
        [REvent.attempt (min f maxRetries + 1)] ∧
    List.countP (fun e => isAttempt e) (resolve_conflict tryRes maxRetries).2 =
      1 + min f maxRetries ∧
    (f ≤ maxRetries → (resolve_conflict tryRes maxRetries).1 = Except.ok v) ∧
    (maxRetries < f →
      (resolve_conflict tryRes maxRetries).1 =
        Except.error ("Failed to get AI resolution after " ++ toString (maxRetries + 1) ++
          " attempts: " ++ errAt (maxRetries + 1))) := by
  by_cases hcase : f ≤ maxRetries
  · have heq := resolveGo_ok tryRes maxRetries f errAt v hcase hfail (hok hcase)
      (maxRetries + 1) 0 (by omega) (by omega)
    have hmin : min f maxRetries = f := Nat.min_eq_left hcase
    unfold resolve_conflict
    rw [heq, hmin]
    simp only [Nat.zero_add, Nat.sub_zero]
    refine ⟨trivial, ?_, fun _ => trivial, fun hlt => absurd hlt (by omega)⟩
    rw [List.countP_append, countAttemptBlocks]
    simp only [List.countP_cons, List.countP_nil, isAttempt_attempt, if_true]
    omega
  · have hlt : maxRetries < f := by omega
    have heq := resolveGo_err tryRes maxRetries errAt
      (fun i h1 h2 => hfail i h1 (by omega)) (maxRetries + 1) 0 (by omega) (by omega)
    have hmin : min f maxRetries = maxRetries := Nat.min_eq_right (by omega)
    unfold resolve_conflict
    rw [heq, hmin]
    simp only [Nat.zero_add, Nat.sub_zero]
    refine ⟨trivial, ?_, fun hle => absurd hle (by omega), fun _ => trivial⟩
    rw [List.countP_append, countAttemptBlocks]
    simp only [List.countP_cons, List.countP_nil, isAttempt_attempt, if_true]
    omega

/-- Attempt outcomes of the C2 witness: attempts 1 and 2 fail, attempt 3
succeeds. -/
def tryResW : Nat → Except String String :=
  fun i => if i ≤ 2 then Except.error ("e" ++ toString i) else Except.ok "v"

/-- C2 witness: with `max_retries = 3` and two consecutive failures the call
makes exactly three attempts, sleeping 1000 ms before the first retry and
2000 ms before the second, and succeeds. -/
theorem c2_retry_policy_witness :
    (resolve_conflict tryResW 3).2 =
      [REvent.attempt 1, REvent.sleepMs 1000, REvent.attempt 2, REvent.sleepMs 2000,
       REvent.attempt 3] ∧
    (resolve_conflict tryResW 3).1 = Except.ok "v" := by
  have h := c2_retry_policy tryResW 3 2 (fun i => "e" ++ toString i) "v"
    (by intro i h1 h2; interval_cases i <;> rfl)
    (fun _ => rfl)
  exact ⟨by rw [h.1]; rfl, h.2.2.1 (by omega)⟩

/-- With the api key absent, `try_resolve` returns the configuration error
without making a network call, whatever the network and parse oracles do. -/
theorem try_resolve_no_key (s : Settings) (hkey : s.openai_api_key = none)
    (net : NetOutcome) (parse : String → Except String (List ChatChoice)) :
    try_resolve s net parse = (Except.error "OpenAI API key not set", 0) := by
  simp [try_resolve, hkey]

/-- C4 amended: when the api key is absent every attempt reports the
configuration error before any network request (zero network calls), but the
retry loop treats this error like any other failure: the call makes
`1 + max_retries` attempts with backoff sleeps between them, and only with
`max_retries = 0` does the error surface with a single attempt and no
sleep. -/
theorem c4_amended_missing_key (s : Settings) (net : Nat → NetOutcome)
    (parse : String → Except String (List ChatChoice))
    (hkey : s.openai_api_key = none) :
    (∀ i, try_resolve s (net i) parse = (Except.error "OpenAI API key not set", 0)) ∧
    (resolve_conflict_net s net parse).1 =
      Except.error ("Failed to get AI resolution after " ++ toString (s.max_retries + 1) ++
        " attempts: " ++ "OpenAI API key not set") ∧
    (resolve_conflict_net s net parse).2 =
      (List.range' 1 s.max_retries).flatMap
          (fun n => [REvent.attempt n, REvent.sleepMs (500 * 2 ^ n)]) ++
        [REvent.attempt (s.max_retries + 1)] ∧
    (s.max_retries = 0 → (resolve_conflict_net s net parse).2 = [REvent.attempt 1]) := by
  have h1 : ∀ i, try_resolve s (net i) parse = (Except.error "OpenAI API key not set", 0) :=
    fun i => try_resolve_no_key s hkey (net i) parse
  have heq := resolveGo_err (fun i => (try_resolve s (net i) parse).1) s.max_retries
    (fun _ => "OpenAI API key not set") (fun i hi1 hi2 => by simp [h1 i]) (s.max_retries + 1) 0
    (by omega) (by omega)
  unfold resolve_conflict_net resolve_conflict
  rw [heq]
  simp only [Nat.zero_add, Nat.sub_zero]
  refine ⟨h1, trivial, trivial, fun h0 => ?_⟩
  simp [h0]

/-- C4 witness: with the concrete no-key settings the first attempt makes no
network call and reports the configuration error, and the loop terminates
with the aggregated error. -/
theorem c4_amended_missing_key_witness :
    try_resolve settingsNoKey (netAny 1) parseAny =
      (Except.error "OpenAI API key not set", 0) ∧
    (resolve_conflict_net settingsNoKey netAny parseAny).1 =
      Except.error "Failed to get AI resolution after 2 attempts: OpenAI API key not set" := by
  have h := c4_amended_missing_key settingsNoKey netAny parseAny rfl
  refine ⟨h.1 1, ?_⟩
  rw [h.2.1]
  rfl

/-- The branch of `extract_conflict_content` taken when at least one marker
was not found: flat truncation of the raw content. -/
theorem extract_default (content : Str) (cs ce : Option Nat)
    (hfm : findMarkers (rlines content) = (cs, ce))
    (hnone : cs = none ∨ ce = none) :
    extract_conflict_content content =
      if 500 < content.length then
        match slicePre content 500 with
        | none => none
        | some p => some (p ++ truncMarker)
      else some content := by
  rcases hnone with h | h
  · subst h
    cases ce <;> simp [extract_conflict_content, hfm]
  · subst h
    cases cs <;> simp [extract_conflict_content, hfm]

/-- C6 amended: lengths are byte lengths.  For input without both conflict
markers, content of at most 500 bytes is returned unchanged; content longer
than 500 bytes whose byte offset 500 is a character boundary yields exactly
the first 500 bytes followed by the truncation marker.  (When offset 500 is
not a character boundary the source slice panics; see C7.) -/
theorem c6_amended_truncation (content : Str)
    (hm : (findMarkers (rlines content)).1 = none ∨ (findMarkers (rlines content)).2 = none) :
    (content.length ≤ 500 → extract_conflict_content content = some content) ∧
    (500 < content.length → isCharBoundary content 500 = true →
      extract_conflict_content content = some (content.take 500 ++ truncMarker)) := by
  rcases hfm : findMarkers (rlines content) with ⟨cs, ce⟩
  rw [hfm] at hm
  have hd := extract_default content cs ce hfm hm
  rw [hd]
  constructor
  · intro hlen
    rw [if_neg (by omega)]
  · intro hlen hb
    rw [if_pos hlen]
    have hs : slicePre content 500 = some (content.take 500) := by
      unfold slicePre
      rw [if_pos ⟨by omega, hb⟩]
    rw [hs]

/-- 501 ascii bytes, no markers. -/
def c6big : Str := List.replicate 501 97

/-- C6 witness: a short marker-free text is returned unchanged, and a
501-byte ascii text is truncated to its first 500 bytes plus the marker. -/
theorem c6_amended_truncation_witness :
    extract_conflict_content [97, 98, 99] = some [97, 98, 99] ∧
    extract_conflict_content c6big = some (c6big.take 500 ++ truncMarker) := by
  constructor
  · exact (c6_amended_truncation [97, 98, 99] (Or.inl (by decide))).1 (by decide)
  · exact (c6_amended_truncation c6big (Or.inl (by decide))).2 (by decide) (by decide)

/-- An initial run stays an initial run under appending on the right. -/
theorem hasLead_append (p : Str) : ∀ s t : Str, hasLead p s = true → hasLead p (s ++ t) = true := by
  induction p with
  | nil => intro s t h; rfl
  | cons a p ih =>
    intro s t h
    cases s with
    | nil => simp [hasLead] at h
    | cons b s =>
      rw [List.cons_append]
      simp only [hasLead, Bool.and_eq_true] at h ⊢
      exact ⟨h.1, ih s t h.2⟩

/-- The empty pattern occurs in every string. -/
theorem containsSub_nil (t : Str) : containsSub [] t = true := by
  cases t <;> rfl

/-- An occurrence in `s` is an occurrence in `s ++ t`. -/
theorem containsSub_append_left (p : Str) :
    ∀ s t : Str, containsSub p s = true → containsSub p (s ++ t) = true := by
  intro s
  induction s with
  | nil =>
    intro t h
    cases p with
    | nil => exact containsSub_nil t
    | cons a q => simp [containsSub, List.isEmpty] at h
  | cons b s ih =>
    intro t h
    rw [List.cons_append]
    simp only [containsSub, Bool.or_eq_true] at h ⊢
    rcases h with h | h
    · refine Or.inl ?_
      have hx := hasLead_append p (b :: s) t h
      rwa [List.cons_append] at hx
    · exact Or.inr (ih t h)

/-- An occurrence in `t` is an occurrence in `s ++ t`. -/
theorem containsSub_append_right (p : Str) :
    ∀ s t : Str, containsSub p t = true → containsSub p (s ++ t) = true := by
  intro s
  induction s with
  | nil => intro t h; simpa using h
  | cons b s ih =>
    intro t h
    rw [List.cons_append]
    simp only [containsSub, Bool.or_eq_true]
    exact Or.inr (ih t h)

/-- A pattern occurring in a member line occurs in the newline join. -/
theorem containsSub_joinNl (p : Str) :
    ∀ (ls : List Str) (l : Str), l ∈ ls → containsSub p l = true →
      containsSub p (joinNl ls) = true := by
  intro ls
  induction ls with
  | nil => intro l h; exact absurd h (List.not_mem_nil l)
  | cons l0 rest ih =>
    intro l hmem hc
    cases rest with
    | nil =>
      have hx : l = l0 := by simpa using hmem
      subst hx
      simpa [joinNl] using hc
    | cons l1 rest2 =>
      rcases List.mem_cons.1 hmem with h | h
      · subst h
        show containsSub p (l ++ 10 :: joinNl (l1 :: rest2)) = true
        exact containsSub_append_left p l _ hc
      · have hrec := ih l h hc
        show containsSub p (l0 ++ 10 :: joinNl (l1 :: rest2)) = true
        refine containsSub_append_right p l0 _ ?_
        simp only [containsSub, Bool.or_eq_true]
        exact Or.inr hrec

/-- A start-marker index produced by the scan that did not come from the
accumulator points at a line of the list that contains the start marker. -/
theorem findMarkersGo_fst (ls : List Str) :
    ∀ (i : Nat) (acc : Option Nat × Option Nat) (s : Nat),
      (findMarkersGo ls i acc).1 = some s →
      acc.1 = some s ∨
        ∃ l, ls[s - i]? = some l ∧ containsSub startMarker l = true ∧ i ≤ s := by
  induction ls with
  | nil => intro i acc s h; exact Or.inl h
  | cons l0 rest ih =>
    intro i acc s h
    rw [findMarkersGo] at h
    rcases ih (i + 1)
        (if containsSub startMarker l0 then (some i, acc.2)
         else if containsSub endMarker l0 then (acc.1, some i)
         else acc) s h with h1 | ⟨l, hget, hc, hle⟩
    · by_cases hS : containsSub startMarker l0 = true
      · rw [if_pos hS] at h1
        have hx : i = s := Option.some.inj h1
        subst hx
        exact Or.inr ⟨l0, by simp [Nat.sub_self], hS, le_refl i⟩
      · have hacc :
            (if containsSub startMarker l0 then (some i, acc.2)
             else if containsSub endMarker l0 then (acc.1, some i)
             else acc).1 = acc.1 := by
          by_cases hE : containsSub endMarker l0 = true <;> simp [hS, hE]
        rw [hacc] at h1
        exact Or.inl h1
    · refine Or.inr ⟨l, ?_, hc, by omega⟩
      have hsub : s - i = (s - (i + 1)) + 1 := by omega
      rw [hsub]
      simpa using hget

/-- An end-marker index produced by the scan that did not come from the
accumulator points at a line of the list that contains the end marker. -/
theorem findMarkersGo_snd (ls : List Str) :
    ∀ (i : Nat) (acc : Option Nat × Option Nat) (s : Nat),
      (findMarkersGo ls i acc).2 = some s →
      acc.2 = some s ∨
        ∃ l, ls[s - i]? = some l ∧ containsSub endMarker l = true ∧ i ≤ s := by
  induction ls with
  | nil => intro i acc s h; exact Or.inl h
  | cons l0 rest ih =>
    intro i acc s h
    rw [findMarkersGo] at h
    rcases ih (i + 1)
        (if containsSub startMarker l0 then (some i, acc.2)
         else if containsSub endMarker l0 then (acc.1, some i)
         else acc) s h with h1 | ⟨l, hget, hc, hle⟩
    · by_cases hS : containsSub startMarker l0 = true
      · rw [if_pos hS] at h1
        exact Or.inl h1
      · by_cases hE : containsSub endMarker l0 = true
        · rw [if_neg hS, if_pos hE] at h1
          have hx : i = s := Option.some.inj h1
          subst hx
          exact Or.inr ⟨l0, by simp [Nat.sub_self], hE, le_refl i⟩
        · rw [if_neg hS, if_neg hE] at h1
          exact Or.inl h1
    · refine Or.inr ⟨l, ?_, hc, by omega⟩
      have hsub : s - i = (s - (i + 1)) + 1 := by omega
      rw [hsub]
      simpa using hget

/-- The first component of `findMarkers` points at a line containing the
start marker. -/
theorem findMarkers_fst_spec (ls : List Str) (s : Nat) (h : (findMarkers ls).1 = some s) :
    ∃ l, ls[s]? = some l ∧ containsSub startMarker l = true := by
  rcases findMarkersGo_fst ls 0 (none, none) s h with h1 | ⟨l, hget, hc, _⟩
  · exact absurd h1 (by simp)
  · exact ⟨l, by simpa using hget, hc⟩

/-- The second component of `findMarkers` points at a line containing the
end marker. -/
theorem findMarkers_snd_spec (ls : List Str) (s : Nat) (h : (findMarkers ls).2 = some s) :
    ∃ l, ls[s]? = some l ∧ containsSub endMarker l = true := by
  rcases findMarkersGo_snd ls 0 (none, none) s h with h1 | ⟨l, hget, hc, _⟩
  · exact absurd h1 (by simp)
  · exact ⟨l, by simpa using hget, hc⟩

/-- C5 amended: when both markers are found, the last start-marker line is at
or before the last end-marker line, and the joined window fits in 500 bytes,
the excerpt is exactly the newline join of the contiguous line range from
`start - 3` (clamped to 0) to `end + 3` (clamped to the line count), and the
excerpt contains both marker strings. -/
theorem c5_amended_window (content : Str) (s0 e0 : Nat)
    (hm : findMarkers (rlines content) = (some s0, some e0))
    (hle : s0 ≤ e0)
    (hlen : (joinNl (((rlines content).drop (s0 - 3)).take
        (min (e0 + 3 + 1) (rlines content).length - (s0 - 3)))).length ≤ 500) :
    extract_conflict_content content =
      some (joinNl (((rlines content).drop (s0 - 3)).take
        (min (e0 + 3 + 1) (rlines content).length - (s0 - 3)))) ∧
    containsSub startMarker (joinNl (((rlines content).drop (s0 - 3)).take
        (min (e0 + 3 + 1) (rlines content).length - (s0 - 3)))) = true ∧
    containsSub endMarker (joinNl (((rlines content).drop (s0 - 3)).take
        (min (e0 + 3 + 1) (rlines content).length - (s0 - 3)))) = true := by
  obtain ⟨lS, hgetS, hcS⟩ := findMarkers_fst_spec (rlines content) s0 (by rw [hm])
  obtain ⟨lE, hgetE, hcE⟩ := findMarkers_snd_spec (rlines content) e0 (by rw [hm])
  have hltS : s0 < (rlines content).length := by
    by_contra hge
    rw [List.getElem?_eq_none (by omega)] at hgetS
    cases hgetS
  have hltE : e0 < (rlines content).length := by
    by_contra hge
    rw [List.getElem?_eq_none (by omega)] at hgetE
    cases hgetE
  have hslice :
      sliceRange (rlines content) (s0 - 3) (min (e0 + 3 + 1) (rlines content).length) =
      some (((rlines content).drop (s0 - 3)).take
        (min (e0 + 3 + 1) (rlines content).length - (s0 - 3))) := by
    unfold sliceRange
    rw [if_pos ⟨by omega, by omega⟩]
  have hwinS :
      (((rlines content).drop (s0 - 3)).take
        (min (e0 + 3 + 1) (rlines content).length - (s0 - 3)))[s0 - (s0 - 3)]? = some lS := by
    rw [List.getElem?_take_of_lt (by omega), List.getElem?_drop]
    have hx : (s0 - 3) + (s0 - (s0 - 3)) = s0 := by omega
    rw [hx]
    exact hgetS
  have hwinE :
      (((rlines content).drop (s0 - 3)).take
        (min (e0 + 3 + 1) (rlines content).length - (s0 - 3)))[e0 - (s0 - 3)]? = some lE := by
    rw [List.getElem?_take_of_lt (by omega), List.getElem?_drop]
    have hx : (s0 - 3) + (e0 - (s0 - 3)) = e0 := by omega
    rw [hx]
    exact hgetE
  refine ⟨?_, ?_, ?_⟩
  · unfold extract_conflict_content
    rw [hm]
    simp only [hslice]
    rw [if_neg (by omega)]
  · exact containsSub_joinNl startMarker _ lS (List.getElem?_mem hwinS) hcS
  · exact containsSub_joinNl endMarker _ lE (List.getElem?_mem hwinE) hcE

/-- Three lines: the start marker line, a separator line, the end marker
line. -/
def c5w : Str := startMarker ++ 10 :: (List.replicate 7 61 ++ 10 :: endMarker)

/-- C5 witness: on a well-ordered three-line conflict text the excerpt is the
join of the whole window and contains both markers. -/
theorem c5_amended_window_witness :
    extract_conflict_content c5w =
      some (joinNl (((rlines c5w).drop (0 - 3)).take
        (min (2 + 3 + 1) (rlines c5w).length - (0 - 3)))) ∧
    containsSub startMarker (joinNl (((rlines c5w).drop (0 - 3)).take
        (min (2 + 3 + 1) (rlines c5w).length - (0 - 3)))) = true ∧
    containsSub endMarker (joinNl (((rlines c5w).drop (0 - 3)).take
        (min (2 + 3 + 1) (rlines c5w).length - (0 - 3)))) = true :=
  c5_amended_window c5w 0 2 (by decide) (by decide) (by decide)

/-- 499 ascii bytes followed by the three-byte character U+20AC: 502 bytes,
no conflict markers, byte offset 500 inside the multi-byte character. -/
def c6input : Str := List.replicate 499 98 ++ [226, 130, 172]

/-- Claim C6 counterexample: a marker-free text longer than 500 bytes for
which the truncation step does not return the first 500 characters plus a
truncation marker: byte offset 500 is not a character boundary, so the byte
slice panics instead of returning. -/
theorem c6_truncation_counterexample :
    findMarkers (rlines c6input) = (none, none) ∧
    c6input.length = 502 ∧
    extract_conflict_content c6input = none := by decide

@[simp]
theorem attPath_resolveAttempt (p : Str) : attPath (OEvent.resolveAttempt p) = some p := rfl

@[simp]
theorem attPath_applied (p : Str) : attPath (OEvent.applied p) = none := rfl

@[simp]
theorem attPath_abortInvoked : attPath OEvent.abortInvoked = none := rfl

@[simp]
theorem attPath_checkBranch (n : String) (b : Bool) : attPath (OEvent.checkBranch n b) = none :=
  rfl

@[simp]
theorem attPath_mergeInvoked : attPath OEvent.mergeInvoked = none := rfl

@[simp]
theorem exOk_ok (a : α) : exOk (Except.ok a : Except ε α) = true := rfl

@[simp]
theorem exOk_error (e : ε) : exOk (Except.error e : Except ε α) = false := rfl

/-- The resolving loop attempts every file in order, never aborts by itself,
and its flag is the conjunction of the incoming flag with the success of
every resolution. -/
theorem resolvingLoop_spec (resolve : ConflictFile → Except String Str) :
    ∀ (cs : List ConflictFile) (st : RepoState) (b : Bool),
      (resolvingLoop resolve cs st b).2.2.filterMap attPath = cs.map (fun c => c.path) ∧
      OEvent.abortInvoked ∉ (resolvingLoop resolve cs st b).2.2 ∧
      (resolvingLoop resolve cs st b).2.1 = (b && cs.all (fun c => exOk (resolve c))) := by
  intro cs
  induction cs with
  | nil =>
    intro st b
    refine ⟨rfl, by simp [resolvingLoop], by simp [resolvingLoop]⟩
  | cons c rest ih =>
    intro st b
    cases hr : resolve c with
    | ok text =>
      have hx := ih (apply_resolution st c.path text) b
      refine ⟨?_, ?_, ?_⟩
      · simp [resolvingLoop, hr, List.filterMap_cons, hx.1]
      · simp [resolvingLoop, hr, hx.2.1]
      · simp [resolvingLoop, hr, hx.2.2, List.all_cons]
    | error err =>
      have hx := ih st false
      refine ⟨?_, ?_, ?_⟩
      · simp [resolvingLoop, hr, List.filterMap_cons, hx.1]
      · simp [resolvingLoop, hr, hx.2.1]
      · simp [resolvingLoop, hr, hx.2.2, List.all_cons]

/-- Reduction of `handle_merge` when the target branch is missing. -/
theorem handle_merge_no_target (o : MergeOracle) (s : Settings) (target source : String)
    (st : RepoState) (hb : o.branches target = false) :
    handle_merge o s target source st =
      (Except.error ("Target branch \x27" ++ target ++ "\x27 does not exist"), st,
       [OEvent.checkBranch target false]) := by
  unfold handle_merge
  rw [hb, if_pos rfl]

/-- Reduction of `handle_merge` when the target exists and the source branch
is missing. -/
theorem handle_merge_no_source (o : MergeOracle) (s : Settings) (target source : String)
    (st : RepoState) (hb1 : o.branches target = true) (hb2 : o.branches source = false) :
    handle_merge o s target source st =
      (Except.error ("Source branch \x27" ++ source ++ "\x27 does not exist"), st,
       [OEvent.checkBranch target true, OEvent.checkBranch source false]) := by
  unfold handle_merge
  rw [hb1, hb2, if_neg (by simp), if_pos rfl]

/-- Reduction of `handle_merge` to the resolving branch when both branches
exist, the merge conflicts, and an api key is configured. -/
theorem handle_merge_resolving (o : MergeOracle) (s : Settings) (target source : String)
    (st : RepoState) (hb1 : o.branches target = true) (hb2 : o.branches source = true)
    (hc : o.hasConflicts = true) (hk : s.openai_api_key.isSome = true) :
    handle_merge o s target source st =
      (if (resolvingLoop o.resolve o.conflicts (o.mergeFx st) true).2.1 then
        (Except.ok (), (resolvingLoop o.resolve o.conflicts (o.mergeFx st) true).1,
         [OEvent.checkBranch target true, OEvent.checkBranch source true,
          OEvent.mergeInvoked] ++ (resolvingLoop o.resolve o.conflicts (o.mergeFx st) true).2.2)
      else
        (Except.ok (), abort_merge (resolvingLoop o.resolve o.conflicts (o.mergeFx st) true).1,
         [OEvent.checkBranch target true, OEvent.checkBranch source true,
          OEvent.mergeInvoked] ++ (resolvingLoop o.resolve o.conflicts (o.mergeFx st) true).2.2 ++
          [OEvent.abortInvoked])) := by
  unfold handle_merge
  rw [hb1, hb2, hc, hk, if_neg (by simp), if_neg (by simp), if_pos rfl, if_pos rfl]

/-- C8: during the resolving phase every conflicted file is attempted, in
order, even when an earlier file failed — the list of attempted paths always
equals the full conflict list; when some file failed, the abort is the final
event of the run, after every attempt; when every file succeeded, no abort
happens. -/
theorem c8_attempts_all_files (o : MergeOracle) (s : Settings) (target source : String)
    (st : RepoState)
    (hb1 : o.branches target = true) (hb2 : o.branches source = true)
    (hc : o.hasConflicts = true) (hk : s.openai_api_key.isSome = true) :
    (handle_merge o s target source st).2.2.filterMap attPath =
      o.conflicts.map (fun c => c.path) ∧
    ((∃ c ∈ o.conflicts, exOk (o.resolve c) = false) →
      (handle_merge o s target source st).2.2.getLast? = some OEvent.abortInvoked) ∧
    ((∀ c ∈ o.conflicts, exOk (o.resolve c) = true) →
      OEvent.abortInvoked ∉ (handle_merge o s target source st).2.2) := by
  have hloop := resolvingLoop_spec o.resolve o.conflicts (o.mergeFx st) true
  rw [handle_merge_resolving o s target source st hb1 hb2 hc hk]
  by_cases hall : o.conflicts.all (fun c => exOk (o.resolve c)) = true
  · have hflag : (resolvingLoop o.resolve o.conflicts (o.mergeFx st) true).2.1 = true := by
      rw [hloop.2.2, hall, Bool.and_true]
    rw [if_pos hflag]
    refine ⟨?_, ?_, ?_⟩
    · simp [List.filterMap_append, hloop.1]
    · rintro ⟨c, hcin, hcf⟩
      exfalso
      rw [List.all_eq_true] at hall
      have hx := hall c hcin
      rw [hcf] at hx
      cases hx
    · intro _
      simp [hloop.2.1]
  · have hallf : o.conflicts.all (fun c => exOk (o.resolve c)) = false := by
      cases hx : o.conflicts.all (fun c => exOk (o.resolve c))
      · rfl
      · exact absurd hx hall
    have hflag : (resolvingLoop o.resolve o.conflicts (o.mergeFx st) true).2.1 = false := by
      rw [hloop.2.2, hallf, Bool.and_false]
    rw [if_neg (by simp [hflag])]
    refine ⟨?_, ?_, ?_⟩
    · simp [List.filterMap_append, hloop.1]
    · intro _
      exact List.getLast?_concat _
    · intro hallt
      exfalso
      exact hall (List.all_eq_true.2 fun c hcin => hallt c hcin)

/-- C8 witness: with two conflicts where the first resolves and the second
fails, both files are attempted (in order) and the abort is the final
event. -/
theorem c8_attempts_all_files_witness :
    (handle_merge oracleEx settingsKey "main" "feature" st0).2.2.filterMap attPath =
      [pathA, pathB] ∧
    (handle_merge oracleEx settingsKey "main" "feature" st0).2.2.getLast? =
      some OEvent.abortInvoked := by
  have h := c8_attempts_all_files oracleEx settingsKey "main" "feature" st0 rfl rfl rfl rfl
  exact ⟨h.1, h.2.1 ⟨cfB, by decide, by decide⟩⟩

/-- A content produced by `tryGetContent` passed the UTF-8 validity check. -/
theorem tryGetContent_valid (blobs : Nat → Option Str) (oid : Nat) (c : Str)
    (h : tryGetContent blobs oid = some c) : validUtf8 c = true := by
  unfold tryGetContent at h
  cases hb : blobs oid with
  | none => rw [hb] at h; cases h
  | some bytes =>
    rw [hb] at h
    simp only [] at h
    by_cases hv : validUtf8 (bytes.filter (fun b => b ≠ 0)) = true
    · rw [if_pos hv] at h
      cases Option.some.inj h
      exact hv
    · rw [if_neg hv] at h
      cases h

/-- An entry missing the our or the their stage converts to nothing. -/
theorem convertConflict_none (blobs : Nat → Option Str) (e : IndexConflictEntry)
    (h : e.our = none ∨ e.their = none) : convertConflict blobs e = none := by
  unfold convertConflict
  rcases h with h | h
  · rw [h]
  · rw [h]
    cases e.our <;> rfl

/-- Both text sides of a converted conflict entry are valid UTF-8. -/
theorem convertConflict_valid (blobs : Nat → Option Str) (e : IndexConflictEntry)
    (cf : ConflictFile) (h : convertConflict blobs e = some cf) :
    validUtf8 cf.our_content = true ∧ validUtf8 cf.their_content = true := by
  cases hou : e.our with
  | none =>
    rw [convertConflict_none blobs e (Or.inl hou)] at h
    cases h
  | some our =>
    cases hth : e.their with
    | none =>
      rw [convertConflict_none blobs e (Or.inr hth)] at h
      cases h
    | some their =>
      unfold convertConflict at h
      rw [hou, hth] at h
      simp only [] at h
      by_cases hp : validUtf8 our.path = true
      · rw [if_pos hp] at h
        cases htc1 : tryGetContent blobs our.oid with
        | none => rw [htc1] at h; cases h
        | some ourC =>
          rw [htc1] at h
          simp only [] at h
          cases htc2 : tryGetContent blobs their.oid with
          | none => rw [htc2] at h; cases h
          | some theirC =>
            rw [htc2] at h
            simp only [] at h
            cases Option.some.inj h
            exact ⟨tryGetContent_valid blobs our.oid ourC htc1,
                   tryGetContent_valid blobs their.oid theirC htc2⟩
      · rw [if_neg hp] at h
        cases h

/-- `get_conflicts` is the filter-map of the per-entry conversion. -/
theorem get_conflicts_eq (blobs : Nat → Option Str) :
    ∀ es : List IndexConflictEntry,
      get_conflicts blobs es = es.filterMap (convertConflict blobs) := by
  intro es
  induction es with
  | nil => rfl
  | cons e rest ih =>
    cases hc : convertConflict blobs e <;> simp [get_conflicts, List.filterMap_cons, hc, ih]

/-- C9: every conflict file returned by conflict enumeration carries both
sides as valid text, the enumeration is exactly the conversion filter over
the index entries (per-entry failures are skipped, never raised), and an
entry missing the our or the their stage is silently excluded. -/
theorem c9_conflict_sides_valid (blobs : Nat → Option Str)
    (entries : List IndexConflictEntry) :
    (∀ cf ∈ get_conflicts blobs entries,
      validUtf8 cf.our_content = true ∧ validUtf8 cf.their_content = true) ∧
    get_conflicts blobs entries = entries.filterMap (convertConflict blobs) ∧
    (∀ e ∈ entries, e.our = none ∨ e.their = none → convertConflict blobs e = none) := by
  refine ⟨?_, get_conflicts_eq blobs entries, fun e _ h => convertConflict_none blobs e h⟩
  intro cf hmem
  rw [get_conflicts_eq blobs entries] at hmem
  obtain ⟨e, hein, hconv⟩ := List.mem_filterMap.1 hmem
  exact convertConflict_valid blobs e cf hconv

/-- Blob store of the C9 witness. -/
def blobsEx : Nat → Option Str :=
  fun oid => if oid = 1 then some [104] else if oid = 2 then some [105] else none

/-- A complete index conflict entry. -/
def goodEntry : IndexConflictEntry := ⟨some ⟨[112], 1⟩, some ⟨[112], 2⟩, none⟩

/-- An index conflict entry missing the their stage. -/
def badEntry : IndexConflictEntry := ⟨some ⟨[113], 1⟩, none, none⟩

/-- The entries of the C9 witness. -/
def entriesEx : List IndexConflictEntry := [goodEntry, badEntry]

/-- The conflict file the good entry converts to. -/
def cfEx : ConflictFile := ⟨[112], [104], [105], none⟩

/-- C9 witness: the complete entry yields a conflict file with valid sides,
and the entry missing its their stage is excluded. -/
theorem c9_conflict_sides_valid_witness :
    (validUtf8 cfEx.our_content = true ∧ validUtf8 cfEx.their_content = true) ∧
    convertConflict blobsEx badEntry = none := by
  refine ⟨(c9_conflict_sides_valid blobsEx entriesEx).1 cfEx (by decide), ?_⟩
  exact (c9_conflict_sides_valid blobsEx entriesEx).2.2 badEntry (by decide) (Or.inr rfl)

/-- C10: when the target or the source branch name does not resolve, the
merge operation stops with the distinct error naming the missing branch (the
target is checked first), the repository state is untouched, and neither the
merge primitive nor an apply or abort is ever reached. -/
theorem c10_branch_not_found_preflight (o : MergeOracle) (s : Settings)
    (target source : String) (st : RepoState)
    (h : o.branches target = false ∨ o.branches source = false) :
    (o.branches target = false →
      (handle_merge o s target source st).1 =
        Except.error ("Target branch \x27" ++ target ++ "\x27 does not exist")) ∧
    (o.branches target = true → o.branches source = false →
      (handle_merge o s target source st).1 =
        Except.error ("Source branch \x27" ++ source ++ "\x27 does not exist")) ∧
    (handle_merge o s target source st).2.1 = st ∧
    OEvent.mergeInvoked ∉ (handle_merge o s target source st).2.2 ∧
    OEvent.abortInvoked ∉ (handle_merge o s target source st).2.2 ∧
    (∀ p, OEvent.applied p ∉ (handle_merge o s target source st).2.2) := by
  cases hb1 : o.branches target with
  | false =>
    rw [handle_merge_no_target o s target source st hb1]
    exact ⟨fun _ => rfl, fun hcontra _ => Bool.noConfusion hcontra, rfl, by simp, by simp,
      fun p => by simp⟩
  | true =>
    have hb2 : o.branches source = false := by
      rcases h with hx | hx
      · rw [hb1] at hx; cases hx
      · exact hx
    rw [handle_merge_no_source o s target source st hb1 hb2]
    exact ⟨fun hcontra => Bool.noConfusion hcontra, fun _ _ => rfl, rfl, by simp, by simp,
      fun p => by simp⟩

/-- Oracle of the C10 witness: only the branch main exists. -/
def oracleMainOnly : MergeOracle :=
  { branches := fun n => n == "main"
    mergeFx := id
    hasConflicts := false
    conflicts := []
    resolve := fun _ => Except.error "unused" }

/-- C10 witness: merging from the missing branch dev fails with the source
error, leaves the state unchanged, and never reaches the merge primitive. -/
theorem c10_branch_not_found_preflight_witness :
    (handle_merge oracleMainOnly settingsKey "main" "dev" st0).1 =
      Except.error ("Source branch \x27" ++ "dev" ++ "\x27 does not exist") ∧
    (handle_merge oracleMainOnly settingsKey "main" "dev" st0).2.1 = st0 ∧
    OEvent.mergeInvoked ∉ (handle_merge oracleMainOnly settingsKey "main" "dev" st0).2.2 := by
  have h := c10_branch_not_found_preflight oracleMainOnly settingsKey "main" "dev" st0
    (Or.inr (by decide))
  exact ⟨h.2.1 (by decide) (by decide), h.2.2.1, h.2.2.2.1⟩
